import Mathlib

/-!
# Verification of the geodb parallel collection-and-clustering core

Shallow embedding, in Lean 4, of the algorithmic core of the repository:

* the lock-free shared append buffer reservation protocol
  (`escreverCidadeNoBuffer` in
  `src/app/public/js/workers/trabalhadorColetaDados.js`),
* the length-prefixed binary record codec
  (`serializeCity` / `deserializeCity` in
  `src/app/public/js/util/sharedMemorySerializer.js`),
* the paginated fetch-with-retry loop (`buscarPagina` in
  `src/app/public/js/workers/trabalhadorColetaDados.js`),
* the two-pass deduplication inlined in `coletarCidadesParalelo`
  (`src/app/public/js/services/kmeansService.js`),
* the partitioned k-means engine (`kmeansService.js` together with
  `kmeansWorker.js`).

JavaScript numbers are modelled as `ℚ` (the programs only perform field
operations and comparisons on values far from the limits of IEEE doubles;
no claim in scope depends on rounding of doubles), byte buffers as
`List ℕ`, and the host's nondeterministic inputs (HTTP responses,
`Math.random()`) as explicit function parameters.
-/

/-! ## Shared append buffer (C1)

`escreverCidadeNoBuffer` reserves space with the loop

```
indiceEscrita = Atomics.load(visualizacaoAtomica, 0);
if (indiceEscrita + tamanhoCidade > tamanhoTotalBuffer) return false;
indiceReal = Atomics.compareExchange(visualizacaoAtomica, 0, indiceEscrita,
                                     indiceEscrita + tamanhoCidade);
if (indiceReal === indiceEscrita) break;  // reserved
```

Every mutation of the cursor word goes through `compareExchange`, so an
arbitrary concurrent execution linearizes into a sequence of atomic events
on the cursor: a successful CAS (the observed value is still current and
the new cursor fits), a capacity failure (decided on the value read by
`Atomics.load`, which is the current cursor at that instant), or a failed
CAS (the cursor moved since the load).  We model a run as a list of such
events.
-/

/-- One atomic event of the reservation protocol, as seen at the cursor
word.  `observado` is the cursor value the writer loaded, `tamanho` the
requested size in bytes. -/
inductive EventoReserva where
  | sucesso (observado tamanho : ℕ)
  | falhaCheio (observado tamanho : ℕ)
  | falhaCas (observado tamanho : ℕ)
deriving DecidableEq, Repr

/-- Semantics of one event at current cursor `cursor` with buffer capacity
`cap`: `some cursor'` when the event can occur there, `none` when it is
impossible (the model only admits traces consistent with the atomics). -/
def passoReserva (cap cursor : ℕ) : EventoReserva → Option ℕ
  | .sucesso obs tam =>
      if cursor = obs ∧ obs + tam ≤ cap then some (obs + tam) else none
  | .falhaCheio obs tam =>
      if cursor = obs ∧ cap < obs + tam then some cursor else none
  | .falhaCas obs _ =>
      if cursor ≠ obs then some cursor else none

/-- Run a trace of reservation events from cursor `cursor`; `some c` is the
final cursor of a consistent run. -/
def executaReservas (cap cursor : ℕ) : List EventoReserva → Option ℕ
  | [] => some cursor
  | e :: resto =>
      match passoReserva cap cursor e with
      | none => none
      | some c => executaReservas cap c resto

/-- The byte ranges granted by the successful reservations of a trace, as
`(offset, size)` pairs in trace order. -/
def reservas (tr : List EventoReserva) : List (ℕ × ℕ) :=
  tr.filterMap fun e =>
    match e with
    | .sucesso obs tam => some (obs, tam)
    | _ => none

theorem executaReservas_mono {cap : ℕ} :
    ∀ {tr : List EventoReserva} {c0 cF : ℕ},
      executaReservas cap c0 tr = some cF →
      c0 ≤ cF ∧
      ∀ p ∈ reservas tr, c0 ≤ p.1 ∧ p.1 + p.2 ≤ cap ∧ p.1 + p.2 ≤ cF := by
  intro tr
  induction tr with
  | nil =>
      intro c0 cF h
      simp [executaReservas] at h
      subst h
      simp [reservas]
  | cons e resto ih =>
      intro c0 cF h
      simp only [executaReservas] at h
      cases e with
      | sucesso obs tam =>
          by_cases hc : c0 = obs ∧ obs + tam ≤ cap
          · rw [passoReserva, if_pos hc] at h
            obtain ⟨hcur, hfit⟩ := hc
            obtain ⟨hmono, hall⟩ := ih h
            refine ⟨le_trans (hcur ▸ Nat.le_add_right _ _) hmono, ?_⟩
            intro p hp
            simp only [reservas, List.filterMap_cons] at hp
            rcases List.mem_cons.mp hp with hph | hpt
            · subst hph
              exact ⟨hcur.le, hfit, hmono⟩
            · obtain ⟨h1, h2, h3⟩ := hall p hpt
              exact ⟨le_trans (hcur ▸ Nat.le_add_right _ _) h1, h2, h3⟩
          · rw [passoReserva, if_neg hc] at h
            cases h
      | falhaCheio obs tam =>
          by_cases hc : c0 = obs ∧ cap < obs + tam
          · rw [passoReserva, if_pos hc] at h
            obtain ⟨hmono, hall⟩ := ih h
            refine ⟨hmono, ?_⟩
            intro p hp
            simp only [reservas, List.filterMap_cons] at hp
            exact hall p hp
          · rw [passoReserva, if_neg hc] at h
            cases h
      | falhaCas obs tam =>
          by_cases hc : c0 ≠ obs
          · rw [passoReserva, if_pos hc] at h
            obtain ⟨hmono, hall⟩ := ih h
            refine ⟨hmono, ?_⟩
            intro p hp
            simp only [reservas, List.filterMap_cons] at hp
            exact hall p hp
          · rw [passoReserva, if_neg hc] at h
            cases h

theorem reservas_pairwise {cap : ℕ} :
    ∀ {tr : List EventoReserva} {c0 cF : ℕ},
      executaReservas cap c0 tr = some cF →
      (reservas tr).Pairwise fun a b => a.1 + a.2 ≤ b.1 := by
  intro tr
  induction tr with
  | nil => intro c0 cF _; simp [reservas]
  | cons e resto ih =>
      intro c0 cF h
      simp only [executaReservas] at h
      cases e with
      | sucesso obs tam =>
          by_cases hc : c0 = obs ∧ obs + tam ≤ cap
          · rw [passoReserva, if_pos hc] at h
            have hmono : obs + tam ≤ cF ∧
                ∀ p ∈ reservas resto,
                  obs + tam ≤ p.1 ∧ p.1 + p.2 ≤ cap ∧ p.1 + p.2 ≤ cF :=
              executaReservas_mono h
            simp only [reservas, List.filterMap_cons]
            refine List.Pairwise.cons ?_ (ih h)
            intro p hp
            exact (hmono.2 p hp).1
          · rw [passoReserva, if_neg hc] at h; cases h
      | falhaCheio obs tam =>
          by_cases hc : c0 = obs ∧ cap < obs + tam
          · rw [passoReserva, if_pos hc] at h
            simpa [reservas, List.filterMap_cons] using ih h
          · rw [passoReserva, if_neg hc] at h; cases h
      | falhaCas obs tam =>
          by_cases hc : c0 ≠ obs
          · rw [passoReserva, if_pos hc] at h
            simpa [reservas, List.filterMap_cons] using ih h
          · rw [passoReserva, if_neg hc] at h; cases h

/-- C1.  In every consistent execution of the shared append buffer whose
write cursor starts at `headerSize = 8` and in which all writers reserve
through the atomic load / compare-and-swap loop of
`escreverCidadeNoBuffer`, the successfully reserved byte ranges all lie in
`[8, cap)` (that is, `8 ≤ offset` and `offset + size ≤ cap`), ranges
granted earlier end before later ones begin (hence all ranges are pairwise
disjoint), and a capacity-failure event (`observado + tamanho > cap`)
leaves the cursor unchanged. -/
theorem escreverCidadeNoBuffer_reservas_disjuntas
    (cap cF : ℕ) (tr : List EventoReserva)
    (h : executaReservas cap 8 tr = some cF) :
    (∀ p ∈ reservas tr, 8 ≤ p.1 ∧ p.1 + p.2 ≤ cap) ∧
    ((reservas tr).Pairwise fun a b => a.1 + a.2 ≤ b.1) ∧
    (∀ cursor obs tam c,
       passoReserva cap cursor (.falhaCheio obs tam) = some c → c = cursor) := by
  refine ⟨?_, reservas_pairwise h, ?_⟩
  · intro p hp
    have := (executaReservas_mono h).2 p hp
    exact ⟨this.1, this.2.1⟩
  · intro cursor obs tam c hc
    by_cases hcond : cursor = obs ∧ cap < obs + tam
    · rw [passoReserva, if_pos hcond] at hc
      exact (Option.some_inj.mp hc).symm
    · rw [passoReserva, if_neg hcond] at hc
      cases hc

/-- Witness for C1: a buffer of capacity 100 with header size 8; two
successful reservations of 50 and 42 bytes (with an interleaved CAS
failure), then a capacity failure for a further 50-byte request, form a
consistent run, and the theorem applies to it. -/
theorem escreverCidadeNoBuffer_reservas_disjuntas_witness :
    executaReservas 100 8
      [EventoReserva.sucesso 8 50, EventoReserva.falhaCas 8 50,
       EventoReserva.sucesso 58 42, EventoReserva.falhaCheio 100 50]
      = some 100 ∧
    ((∀ p ∈ reservas
        [EventoReserva.sucesso 8 50, EventoReserva.falhaCas 8 50,
         EventoReserva.sucesso 58 42, EventoReserva.falhaCheio 100 50],
        8 ≤ p.1 ∧ p.1 + p.2 ≤ 100) ∧
     ((reservas
        [EventoReserva.sucesso 8 50, EventoReserva.falhaCas 8 50,
         EventoReserva.sucesso 58 42, EventoReserva.falhaCheio 100 50]).Pairwise
        fun a b => a.1 + a.2 ≤ b.1) ∧
     (∀ cursor obs tam c,
        passoReserva 100 cursor (.falhaCheio obs tam) = some c → c = cursor)) :=
  ⟨by decide,
   escreverCidadeNoBuffer_reservas_disjuntas 100 100 _ (by decide)⟩

/-! ## Binary record codec (C4)

`serializeCity` / `deserializeCity` in
`src/app/public/js/util/sharedMemorySerializer.js`.  A byte buffer is a
`List ℕ` (a `Uint8Array` whose cells we store verbatim; `TextEncoder`
always produces values `< 256`, so no truncation is observable).  The host
builtins `JSON.stringify` / `TextEncoder` (and their inverses) are
parameters of the embedding, with their contract
(`parse ∘ decode ∘ encode ∘ stringify = some`) as a hypothesis where the
round trip needs it. -/

/-- A geographic record, as handled by the collection pipeline. -/
structure Cidade where
  id : ℕ
  name : String
  cityName : String
  latitude : ℚ
  longitude : ℚ
  population : ℚ
deriving DecidableEq, Repr

/-- Overwrite `buffer` at `off` with the bytes `xs`
(`Uint8Array.prototype.set` / sequential `DataView` stores into an
already-allocated region; only used under `off + xs.length ≤
buffer.length`). -/
def escreverEm (buffer : List ℕ) (off : ℕ) (xs : List ℕ) : List ℕ :=
  buffer.take off ++ xs ++ buffer.drop (off + xs.length)

/-- The four little-endian bytes of `n`, as `DataView.setUint32(_, n, true)`
stores them. -/
def bytesLE32 (n : ℕ) : List ℕ :=
  [n % 256, n / 256 % 256, n / 65536 % 256, n / 16777216 % 256]

/-- Read a 4-byte little-endian unsigned integer at `off`
(`DataView.getUint32(_, true)`). -/
def lerLE32 (buffer : List ℕ) (off : ℕ) : ℕ :=
  buffer.getD off 0 + 256 * buffer.getD (off + 1) 0 +
    65536 * buffer.getD (off + 2) 0 + 16777216 * buffer.getD (off + 3) 0

/-- `serializeCity(city, offset, buffer)`: JSON-encode the record, UTF-8
encode it, store a 4-byte little-endian length followed by the payload at
`offset`, and return the updated buffer together with the new offset.
`stringify` models `JSON.stringify`, `encode` models `TextEncoder`. -/
def serializeCity (stringify : Cidade → String) (encode : String → List ℕ)
    (city : Cidade) (offset : ℕ) (buffer : List ℕ) : List ℕ × ℕ :=
  let bytes := encode (stringify city)
  let buf1 := escreverEm buffer offset (bytesLE32 bytes.length)
  let buf2 := escreverEm buf1 (offset + 4) bytes
  (buf2, offset + 4 + bytes.length)

/-- `deserializeCity(offset, buffer)`: read the 4-byte little-endian
length at `offset`; `null` when the 4 length bytes do not fit in the
buffer (the `DataView` constructor throws, caught by the `try`), when the
length is `0`, or when the declared payload overruns the buffer; otherwise
decode and JSON-parse the payload (`parse` models `JSON.parse`, returning
`none` on a parse failure, `decode` models `TextDecoder`). -/
def deserializeCity (parse : String → Option Cidade) (decode : List ℕ → String)
    (offset : ℕ) (buffer : List ℕ) : Option Cidade :=
  if buffer.length < offset + 4 then none
  else
    let size := lerLE32 buffer offset
    if size = 0 ∨ size > buffer.length - offset - 4 then none
    else parse (decode ((buffer.drop (offset + 4)).take size))

theorem escreverEm_length {buffer xs : List ℕ} {off : ℕ}
    (h : off + xs.length ≤ buffer.length) :
    (escreverEm buffer off xs).length = buffer.length := by
  simp only [escreverEm, List.length_append, List.length_take, List.length_drop]
  omega

theorem escreverEm_getD_lt {buffer xs : List ℕ} {off p : ℕ}
    (hp : p < off) (hoff : off + xs.length ≤ buffer.length) :
    (escreverEm buffer off xs).getD p 0 = buffer.getD p 0 := by
  have h1 : p < (buffer.take off).length := by
    simp only [List.length_take]; omega
  simp only [escreverEm, List.getD_eq_getElem?_getD, List.append_assoc]
  rw [List.getElem?_append_left h1, List.getElem?_take_of_lt hp]

theorem escreverEm_getD_mid {buffer xs : List ℕ} {off j : ℕ}
    (hj : j < xs.length) (hoff : off + xs.length ≤ buffer.length) :
    (escreverEm buffer off xs).getD (off + j) 0 = xs.getD j 0 := by
  have htake : (buffer.take off).length = off := by
    simp only [List.length_take]; omega
  simp only [escreverEm, List.getD_eq_getElem?_getD, List.append_assoc]
  rw [List.getElem?_append_right (by rw [htake]; omega), htake]
  have hsub : off + j - off = j := by omega
  rw [hsub, List.getElem?_append_left hj]

theorem escreverEm_drop_take {buffer xs : List ℕ} {off : ℕ}
    (hoff : off + xs.length ≤ buffer.length) :
    ((escreverEm buffer off xs).drop off).take xs.length = xs := by
  have htake : (buffer.take off).length = off := by
    simp only [List.length_take]; omega
  simp only [escreverEm, List.append_assoc]
  rw [List.drop_left' htake]
  exact List.take_left' rfl

theorem lerLE32_escrito {buffer bytes : List ℕ} {offset : ℕ}
    (hroom : offset + 4 + bytes.length ≤ buffer.length) :
    lerLE32 (escreverEm (escreverEm buffer offset (bytesLE32 bytes.length))
        (offset + 4) bytes) offset = bytes.length % 4294967296 := by
  have hlen4 : (bytesLE32 bytes.length).length = 4 := rfl
  have hlen1 : (escreverEm buffer offset (bytesLE32 bytes.length)).length
      = buffer.length := escreverEm_length (by rw [hlen4]; omega)
  have hb2 : ∀ i, i < 4 →
      (escreverEm (escreverEm buffer offset (bytesLE32 bytes.length))
        (offset + 4) bytes).getD (offset + i) 0
      = (bytesLE32 bytes.length).getD i 0 := by
    intro i hi
    rw [escreverEm_getD_lt (by omega) (by rw [hlen1]; omega)]
    exact escreverEm_getD_mid (by rw [hlen4]; omega) (by rw [hlen4]; omega)
  have e0 : (escreverEm (escreverEm buffer offset (bytesLE32 bytes.length))
      (offset + 4) bytes).getD offset 0 = (bytesLE32 bytes.length).getD 0 0 := by
    exact hb2 0 (by omega)
  have e1 := hb2 1 (by omega)
  have e2 := hb2 2 (by omega)
  have e3 := hb2 3 (by omega)
  rw [lerLE32, e0, e1, e2, e3]
  simp only [bytesLE32, List.getD_cons_zero, List.getD_cons_succ]
  omega

/-- C4.  Encode-then-decode is the identity: for every record whose
JSON-encoded UTF-8 payload is non-empty, fits the 4-byte length field and
fits in the buffer at `offset`, and for which the host JSON/UTF-8 codec
round-trips (the contract of `JSON.parse` / `TextDecoder` on the output of
`JSON.stringify` / `TextEncoder`), `deserializeCity` at the offset where
`serializeCity` wrote the record returns the record unchanged. -/
theorem serializeCity_deserializeCity_roundtrip
    (stringify : Cidade → String) (encode : String → List ℕ)
    (parse : String → Option Cidade) (decode : List ℕ → String)
    (city : Cidade) (offset : ℕ) (buffer : List ℕ)
    (hpos : 0 < (encode (stringify city)).length)
    (hfit : (encode (stringify city)).length < 4294967296)
    (hroom : offset + 4 + (encode (stringify city)).length ≤ buffer.length)
    (hcodec : parse (decode (encode (stringify city))) = some city) :
    deserializeCity parse decode offset
      (serializeCity stringify encode city offset buffer).1 = some city := by
  have hlen4 : (bytesLE32 (encode (stringify city)).length).length = 4 := rfl
  have hlen1 : (escreverEm buffer offset
      (bytesLE32 (encode (stringify city)).length)).length = buffer.length :=
    escreverEm_length (by rw [hlen4]; omega)
  have hlen2 : (escreverEm (escreverEm buffer offset
      (bytesLE32 (encode (stringify city)).length)) (offset + 4)
      (encode (stringify city))).length = buffer.length := by
    rw [escreverEm_length (by rw [hlen1]; omega), hlen1]
  have hler : lerLE32 (escreverEm (escreverEm buffer offset
      (bytesLE32 (encode (stringify city)).length)) (offset + 4)
      (encode (stringify city))) offset
      = (encode (stringify city)).length := by
    rw [lerLE32_escrito hroom, Nat.mod_eq_of_lt hfit]
  have hpayload : ((escreverEm (escreverEm buffer offset
      (bytesLE32 (encode (stringify city)).length)) (offset + 4)
      (encode (stringify city))).drop (offset + 4)).take
      (encode (stringify city)).length = encode (stringify city) :=
    escreverEm_drop_take (by rw [hlen1]; omega)
  simp only [serializeCity, deserializeCity, hlen2, hler]
  rw [if_neg (by omega)]
  rw [if_neg (by push_neg; exact ⟨by omega, by omega⟩)]
  rw [hpayload]
  exact hcodec

/-- Witness for C4: a concrete record, a degenerate one-byte codec for it,
and an 8-byte buffer; the round trip hypotheses hold and the theorem
yields the round-trip identity. -/
theorem serializeCity_deserializeCity_roundtrip_witness :
    deserializeCity
      (fun _ => some ⟨1, "a", "", 2, 3, 5⟩) (fun _ => "x") 0
      (serializeCity (fun _ => "x") (fun _ => [120])
        ⟨1, "a", "", 2, 3, 5⟩ 0 (List.replicate 8 0)).1
      = some ⟨1, "a", "", 2, 3, 5⟩ :=
  serializeCity_deserializeCity_roundtrip
    (fun _ => "x") (fun _ => [120]) (fun _ => some ⟨1, "a", "", 2, 3, 5⟩)
    (fun _ => "x") ⟨1, "a", "", 2, 3, 5⟩ 0 (List.replicate 8 0)
    (by decide) (by decide) (by decide) rfl

/-! ## Paginated fetch-with-retry (C3, C8)

`buscarPagina` in `src/app/public/js/workers/trabalhadorColetaDados.js`.
The HTTP layer is a parameter `respostas : ℕ → Resposta` giving the
outcome of the `n`-th request issued by the loop.  The model records the
trace visible to the caller: how many requests were issued, the
`rate_limit` progress events posted (their `waitTime` in seconds), every
sleep performed (in milliseconds, in order), and the final outcome.

A detail of the source that matters below: the `throw` for a 403 (and for
any other non-retryable status) sits inside the `try` block of the retry
loop, so it is caught by the loop's own `catch`, which increments
`tentativa`, sleeps `1000 * tentativa` ms and retries until
`maxTentativas` is reached. -/

/-- Outcome of a single `fetch` of `/api/cities`. -/
inductive Resposta where
  | ok (dados : ℕ)
  | erroHttp (status : ℕ)
  | falhaRede
deriving DecidableEq, Repr

/-- Final outcome of `buscarPagina`: a parsed page, `undefined` (the JS
function falls off the end of its `while` when retries are exhausted via
the 429/5xx paths), or a thrown error recording the last failure. -/
inductive ResultadoBusca where
  | sucesso (dados : ℕ)
  | indefinido
  | excecao (ultimoErro : Resposta)
deriving DecidableEq, Repr

/-- Caller-visible trace of one `buscarPagina` run. -/
structure TraceBusca where
  requisicoes : ℕ
  eventosRateLimit : List ℕ
  esperasMs : List ℕ
  resultado : ResultadoBusca
deriving DecidableEq, Repr

/-- The body of `buscarPagina`'s retry loop.  `fetchIdx` counts requests
issued so far, `tentativa` is the loop's retry counter, and `fuel`
decreases with every iteration (each non-returning iteration increments
`tentativa`, so `fuel = maxTentativas - tentativa` makes the `while`
condition structural).  Constants from the source: `maxTentativas = 3`,
429 backoff `min(15000 * (tentativa + 1), 60000)` ms with a `rate_limit`
event carrying `tempoEspera / 1000` seconds, 5xx backoff
`2000 * (tentativa + 1)` ms, catch-path backoff `1000 * tentativa` ms
after the increment. -/
def buscarPaginaLoop (respostas : ℕ → Resposta)
    (fetchIdx tentativa : ℕ) (eventos esperas : List ℕ) :
    ℕ → TraceBusca
  | 0 => ⟨fetchIdx, eventos, esperas, .indefinido⟩
  | fuel + 1 =>
      match respostas fetchIdx with
      | .ok d => ⟨fetchIdx + 1, eventos, esperas, .sucesso d⟩
      | .erroHttp s =>
          if s = 429 then
            let espera := min (15000 * (tentativa + 1)) 60000
            buscarPaginaLoop respostas (fetchIdx + 1) (tentativa + 1)
              (eventos ++ [espera / 1000]) (esperas ++ [espera]) fuel
          else if s = 500 ∨ s = 502 ∨ s = 503 ∨ s = 504 then
            buscarPaginaLoop respostas (fetchIdx + 1) (tentativa + 1)
              eventos (esperas ++ [2000 * (tentativa + 1)]) fuel
          else if 3 ≤ tentativa + 1 then
            ⟨fetchIdx + 1, eventos, esperas, .excecao (.erroHttp s)⟩
          else
            buscarPaginaLoop respostas (fetchIdx + 1) (tentativa + 1)
              eventos (esperas ++ [1000 * (tentativa + 1)]) fuel
      | .falhaRede =>
          if 3 ≤ tentativa + 1 then
            ⟨fetchIdx + 1, eventos, esperas, .excecao .falhaRede⟩
          else
            buscarPaginaLoop respostas (fetchIdx + 1) (tentativa + 1)
              eventos (esperas ++ [1000 * (tentativa + 1)]) fuel

/-- `buscarPagina(deslocamento, limite, pagina)` for a given response
sequence, starting from `tentativa = 0` with `maxTentativas = 3`. -/
def buscarPagina (respostas : ℕ → Resposta) : TraceBusca :=
  buscarPaginaLoop respostas 0 0 [] [] 3

/-- C3 (code bug).  Against a server answering HTTP 403 on every request,
`buscarPagina` issues three requests, sleeping 1000 ms and then 2000 ms
between them, before surfacing the access-denied error — the 403 `throw`
is caught by the loop's own `catch` and retried.  The claim (and the
source's own comment on the 403 branch) says the fetch fails immediately
with no retry, i.e. a trace of one request and no sleeps. -/
theorem buscarPagina_403_retenta_tres_vezes :
    buscarPagina (fun _ => .erroHttp 403)
      = ⟨3, [], [1000, 2000], .excecao (.erroHttp 403)⟩ ∧
    (buscarPagina (fun _ => .erroHttp 403)).requisicoes ≠ 1 := by
  constructor <;> decide

/-- C8.  Against a server answering 429, 429 and then a successful page,
`buscarPagina` posts exactly two `rate_limit` events with wait times 15 s
and then 30 s (the source computes `min(15000 * (tentativa + 1), 60000)`
ms and reports it divided by 1000), sleeps exactly those two backoffs,
and then returns the page from the third request. -/
theorem buscarPagina_429_backoff_progressivo :
    buscarPagina (fun n => if n < 2 then .erroHttp 429 else .ok 7)
      = ⟨3, [15, 30], [15000, 30000], .sucesso 7⟩ := by
  decide

/-! ## Two-pass deduplication (C6, C9, C10)

The passes inlined in `coletarCidadesParalelo` (and repeated verbatim in
`coletaParalelaFallback`) in `src/app/public/js/services/kmeansService.js`:

1. collapse by `id` through `new Map(cidades.map(c => [c.id, c]))` —
   insertion order of the first occurrence of each id, value of the last;
2. collapse by the composite key
   `lowercase(trim(name)) | round2(latitude) | round2(longitude)`,
   pushing unseen keys and replacing the kept record in place when a later
   record with the same key has strictly larger population.

A JS `Map` is modelled as an association list in insertion order (`set`
updates an existing key in place, appends a fresh one).  The composite key
is modelled as the tuple of its three components rather than the
interpolated string: JS number-to-string conversion is injective and the
two trailing `|`-separated numeric segments parse back uniquely, so tuple
equality coincides with string equality.  `substituirPrimeiro` models
`indexOf` + in-place assignment; `indexOf` compares references, but the
kept list never holds two records with the same composite key (invariant
below) while structurally equal records have equal keys, so structural
first-occurrence matches the reference semantics. -/

/-- First value stored under `k` (`Map.prototype.get`). -/
def buscarAssoc {α β : Type} [DecidableEq α] : List (α × β) → α → Option β
  | [], _ => none
  | (k', v') :: resto, k => if k' = k then some v' else buscarAssoc resto k

/-- `Map.prototype.set`: update the entry for `k` in place, appending it
when absent. -/
def atualizaAssoc {α β : Type} [DecidableEq α] :
    List (α × β) → α → β → List (α × β)
  | [], k, v => [(k, v)]
  | (k', v') :: resto, k, v =>
      if k' = k then (k, v) :: resto else (k', v') :: atualizaAssoc resto k v

/-- `Math.round(q * 100) / 100`; JS `Math.round` rounds half toward
positive infinity, i.e. `⌊x + 1/2⌋`. -/
def arredonda2 (q : ℚ) : ℚ := (⌊q * 100 + 1 / 2⌋ : ℚ) / 100

/-- `String.prototype.toLowerCase` on one character, for the ASCII range
(the case mapping relevant to the record names in scope). -/
def minusculaChar (c : Char) : Char :=
  if 'A' ≤ c ∧ c ≤ 'Z' then Char.ofNat (c.toNat + 32) else c

/-- `String.prototype.toLowerCase`. -/
def minusculas (s : String) : String := ⟨s.data.map minusculaChar⟩

/-- The whitespace class stripped by `String.prototype.trim`. -/
def espacoBranco (c : Char) : Bool :=
  c = ' ' ∨ c = '\t' ∨ c = '\n' ∨ c = '\r'

/-- `String.prototype.trim`: strip leading and trailing whitespace. -/
def aparar (s : String) : String :=
  ⟨((s.data.dropWhile espacoBranco).reverse.dropWhile espacoBranco).reverse⟩

/-- `(cidade.name || cidade.cityName || "").toLowerCase().trim()`;
the `||` chain takes `cityName` exactly when `name` is the empty string
(the only falsy `String`), and yields `""` when both are empty. -/
def nomeNormalizado (c : Cidade) : String :=
  aparar (minusculas (if c.name = "" then c.cityName else c.name))

/-- The composite deduplication key
`${nome}|${latArredondada}|${lonArredondada}`. -/
def chave (c : Cidade) : String × ℚ × ℚ :=
  (nomeNormalizado c, arredonda2 c.latitude, arredonda2 c.longitude)

/-- JS `(p || 0)` on a numeric population: `p` itself when `p ≠ 0`, and
`0 = p` when `p = 0`; numerically the identity. -/
def populacaoOuZero (q : ℚ) : ℚ := q

/-- Replace the first occurrence of `alvo` by `nova`
(`cidadesUnicas.indexOf(existente)` + in-place assignment; a missing
target leaves the list unchanged, matching the `indice !== -1` guard). -/
def substituirPrimeiro : List Cidade → Cidade → Cidade → List Cidade
  | [], _, _ => []
  | x :: xs, alvo, nova =>
      if x = alvo then nova :: xs else x :: substituirPrimeiro xs alvo nova

/-- One step of the composite-key pass over state
`(vistas, cidadesUnicas)`. -/
def passo2 (estado : List ((String × ℚ × ℚ) × Cidade) × List Cidade)
    (cidade : Cidade) :
    List ((String × ℚ × ℚ) × Cidade) × List Cidade :=
  match buscarAssoc estado.1 (chave cidade) with
  | none => (estado.1 ++ [(chave cidade, cidade)], estado.2 ++ [cidade])
  | some existente =>
      if populacaoOuZero existente.population < cidade.population then
        (atualizaAssoc estado.1 (chave cidade) cidade,
         substituirPrimeiro estado.2 existente cidade)
      else estado

/-- The composite-key pass (second dedup pass). -/
def deduplicaPorChave (l : List Cidade) : List Cidade :=
  (l.foldl passo2 ([], [])).2

/-- The id pass:
`Array.from(new Map(todasCidades.map(c => [c.id, c])).values())`. -/
def deduplicaPorId (l : List Cidade) : List Cidade :=
  (l.foldl (fun m c => atualizaAssoc m c.id c) []).map Prod.snd

/-- The full two-pass deduplication of `coletarCidadesParalelo`. -/
def deduplicaCidades (l : List Cidade) : List Cidade :=
  deduplicaPorChave (deduplicaPorId l)

theorem buscarAssoc_eq_none {α β : Type} [DecidableEq α] :
    ∀ {m : List (α × β)} {k : α},
      buscarAssoc m k = none ↔ k ∉ m.map Prod.fst := by
  intro m
  induction m with
  | nil => simp [buscarAssoc]
  | cons p resto ih =>
      intro k
      by_cases hk : p.1 = k
      · simp [buscarAssoc, hk]
      · simp [buscarAssoc, hk, ih, Ne.symm hk]

theorem atualizaAssoc_fresh {α β : Type} [DecidableEq α] :
    ∀ {m : List (α × β)} {k : α} {v : β},
      k ∉ m.map Prod.fst → atualizaAssoc m k v = m ++ [(k, v)] := by
  intro m
  induction m with
  | nil => intro k v _; rfl
  | cons p resto ih =>
      obtain ⟨k1, v1⟩ := p
      intro k v hk
      simp only [List.map_cons, List.mem_cons] at hk
      push_neg at hk
      simp only [atualizaAssoc, if_neg (Ne.symm hk.1), List.cons_append]
      rw [ih hk.2]

theorem atualizaAssoc_keys_sub {α β : Type} [DecidableEq α] :
    ∀ {m : List (α × β)} {k : α} {v : β} {x : α},
      x ∈ (atualizaAssoc m k v).map Prod.fst →
      x ∈ m.map Prod.fst ∨ x = k := by
  intro m
  induction m with
  | nil => intro k v x hx; simp [atualizaAssoc] at hx; exact Or.inr hx
  | cons p resto ih =>
      intro k v x hx
      by_cases hk : p.1 = k
      · simp only [atualizaAssoc, if_pos hk, List.map_cons, List.mem_cons] at hx
        rcases hx with h | h
        · exact Or.inr h
        · exact Or.inl (by simp [h])
      · simp only [atualizaAssoc, if_neg hk, List.map_cons, List.mem_cons] at hx
        rcases hx with h | h
        · exact Or.inl (by simp [h])
        · rcases ih h with h' | h'
          · exact Or.inl (by simp [h'])
          · exact Or.inr h'

theorem atualizaAssoc_keys_nodup {α β : Type} [DecidableEq α] :
    ∀ {m : List (α × β)} {k : α} {v : β},
      (m.map Prod.fst).Nodup → ((atualizaAssoc m k v).map Prod.fst).Nodup := by
  intro m
  induction m with
  | nil => intro k v _; simp [atualizaAssoc]
  | cons p resto ih =>
      intro k v hnd
      simp only [List.map_cons, List.nodup_cons] at hnd
      by_cases hk : p.1 = k
      · simp only [atualizaAssoc, if_pos hk, List.map_cons, List.nodup_cons]
        exact ⟨hk ▸ hnd.1, hnd.2⟩
      · simp only [atualizaAssoc, if_neg hk, List.map_cons, List.nodup_cons]
        refine ⟨fun hx => ?_, ih hnd.2⟩
        rcases atualizaAssoc_keys_sub hx with h | h
        · exact hnd.1 h
        · exact hk h

theorem substituirPrimeiro_map_eq {γ : Type} {f : Cidade → γ}
    {alvo nova : Cidade} (hf : f alvo = f nova) :
    ∀ out : List Cidade, (substituirPrimeiro out alvo nova).map f = out.map f := by
  intro out
  induction out with
  | nil => rfl
  | cons x xs ih =>
      by_cases hx : x = alvo
      · simp [substituirPrimeiro, hx, ← hf]
      · simp [substituirPrimeiro, hx, ih]

theorem substituirPrimeiro_mem {alvo nova x : Cidade} :
    ∀ {out : List Cidade}, x ∈ substituirPrimeiro out alvo nova →
      x ∈ out ∨ x = nova := by
  intro out
  induction out with
  | nil => intro h; simp [substituirPrimeiro] at h
  | cons y ys ih =>
      intro h
      by_cases hy : y = alvo
      · simp only [substituirPrimeiro, if_pos hy, List.mem_cons] at h
        rcases h with h | h
        · exact Or.inr h
        · exact Or.inl (List.mem_cons_of_mem _ h)
      · simp only [substituirPrimeiro, if_neg hy, List.mem_cons] at h
        rcases h with h | h
        · exact Or.inl (by simp [h])
        · rcases ih h with h' | h'
          · exact Or.inl (List.mem_cons_of_mem _ h')
          · exact Or.inr h'

theorem buscarAssoc_chave_eq {k : String × ℚ × ℚ} {e : Cidade} :
    ∀ {out : List Cidade},
      buscarAssoc (out.map fun c => (chave c, c)) k = some e →
      chave e = k ∧ e ∈ out := by
  intro out
  induction out with
  | nil => intro h; simp [buscarAssoc] at h
  | cons x xs ih =>
      intro h
      simp only [List.map_cons, buscarAssoc] at h
      by_cases hx : chave x = k
      · rw [if_pos hx] at h
        obtain rfl := Option.some_inj.mp h
        exact ⟨hx, List.mem_cons_self _ _⟩
      · rw [if_neg hx] at h
        obtain ⟨h1, h2⟩ := ih h
        exact ⟨h1, List.mem_cons_of_mem _ h2⟩

theorem atualizaAssoc_substituirPrimeiro {k : String × ℚ × ℚ}
    {e nova : Cidade} (hnova : chave nova = k) :
    ∀ {out : List Cidade},
      buscarAssoc (out.map fun c => (chave c, c)) k = some e →
      atualizaAssoc (out.map fun c => (chave c, c)) k nova
        = (substituirPrimeiro out e nova).map fun c => (chave c, c) := by
  intro out
  induction out with
  | nil => intro h; simp [buscarAssoc] at h
  | cons x xs ih =>
      intro h
      simp only [List.map_cons, buscarAssoc] at h
      by_cases hx : chave x = k
      · rw [if_pos hx] at h
        obtain rfl := Option.some_inj.mp h
        simp [atualizaAssoc, hx, substituirPrimeiro, hnova]
      · rw [if_neg hx] at h
        have hxe : ¬ x = e := by
          intro hcontra
          exact hx (hcontra ▸ (buscarAssoc_chave_eq h).1)
        simp only [List.map_cons, atualizaAssoc, if_neg hx,
          substituirPrimeiro, if_neg hxe]
        rw [ih h]

theorem foldl_passo2_inv :
    ∀ (resto out : List Cidade), (out.map chave).Nodup →
      ((resto.foldl passo2 ((out.map fun c => (chave c, c)), out)).1
          = (resto.foldl passo2 ((out.map fun c => (chave c, c)), out)).2.map
              fun c => (chave c, c)) ∧
      ((resto.foldl passo2 ((out.map fun c => (chave c, c)), out)).2.map
          chave).Nodup ∧
      (∀ x ∈ (resto.foldl passo2 ((out.map fun c => (chave c, c)), out)).2,
         x ∈ out ∨ x ∈ resto) := by
  intro resto
  induction resto with
  | nil =>
      intro out hnd
      refine ⟨rfl, hnd, ?_⟩
      intro x hx
      exact Or.inl hx
  | cons c rest ih =>
      intro out hnd
      rw [List.foldl_cons]
      rcases hbusca : buscarAssoc (out.map fun c => (chave c, c)) (chave c)
        with _ | e
      · have hstep : passo2 ((out.map fun c => (chave c, c)), out) c
            = ((out ++ [c]).map fun c => (chave c, c), out ++ [c]) := by
          simp [passo2, hbusca]
        rw [hstep]
        have hkc : chave c ∉ out.map chave := by
          have := buscarAssoc_eq_none.mp hbusca
          simpa [List.map_map, Function.comp] using this
        have hnd' : ((out ++ [c]).map chave).Nodup := by
          rw [List.map_append]
          simp only [List.map_cons, List.map_nil]
          rw [List.nodup_append]
          exact ⟨hnd, List.nodup_singleton _, by simpa using hkc⟩
        obtain ⟨h1, h2, h3⟩ := ih (out ++ [c]) hnd'
        refine ⟨h1, h2, ?_⟩
        intro x hx
        rcases h3 x hx with hx' | hx'
        · rcases List.mem_append.mp hx' with hx'' | hx''
          · exact Or.inl hx''
          · exact Or.inr (by simpa using Or.inl (by simpa using hx''))
        · exact Or.inr (List.mem_cons_of_mem _ hx')
      · obtain ⟨hke, hemem⟩ := buscarAssoc_chave_eq hbusca
        by_cases hgt : populacaoOuZero e.population < c.population
        · have hstep : passo2 ((out.map fun c => (chave c, c)), out) c
              = ((substituirPrimeiro out e c).map fun c => (chave c, c),
                 substituirPrimeiro out e c) := by
            simp only [passo2, hbusca, if_pos hgt]
            rw [atualizaAssoc_substituirPrimeiro rfl hbusca]
          rw [hstep]
          have hnd' : ((substituirPrimeiro out e c).map chave).Nodup := by
            rw [substituirPrimeiro_map_eq (by rw [hke])]
            exact hnd
          obtain ⟨h1, h2, h3⟩ := ih (substituirPrimeiro out e c) hnd'
          refine ⟨h1, h2, ?_⟩
          intro x hx
          rcases h3 x hx with hx' | hx'
          · rcases substituirPrimeiro_mem hx' with hx'' | hx''
            · exact Or.inl hx''
            · exact Or.inr (by simp [hx''])
          · exact Or.inr (List.mem_cons_of_mem _ hx')
        · have hstep : passo2 ((out.map fun c => (chave c, c)), out) c
              = ((out.map fun c => (chave c, c)), out) := by
            simp [passo2, hbusca, hgt]
          rw [hstep]
          obtain ⟨h1, h2, h3⟩ := ih out hnd
          refine ⟨h1, h2, ?_⟩
          intro x hx
          rcases h3 x hx with hx' | hx'
          · exact Or.inl hx'
          · exact Or.inr (List.mem_cons_of_mem _ hx')

theorem deduplicaPorChave_inv (l : List Cidade) :
    ((deduplicaPorChave l).map chave).Nodup ∧
    ∀ x ∈ deduplicaPorChave l, x ∈ l := by
  have h := foldl_passo2_inv l [] (by simp)
  refine ⟨h.2.1, ?_⟩
  intro x hx
  rcases h.2.2 x hx with h' | h'
  · simp at h'
  · exact h'

theorem foldl_passo2_id :
    ∀ (resto : List Cidade)
      (vistas : List ((String × ℚ × ℚ) × Cidade)) (out : List Cidade),
      (∀ x ∈ resto, chave x ∉ vistas.map Prod.fst) →
      (resto.map chave).Nodup →
      resto.foldl passo2 (vistas, out)
        = (vistas ++ (resto.map fun c => (chave c, c)), out ++ resto) := by
  intro resto
  induction resto with
  | nil => intro vistas out _ _; simp
  | cons c rest ih =>
      intro vistas out hfresh hnd
      rw [List.foldl_cons]
      have hnone : buscarAssoc vistas (chave c) = none :=
        buscarAssoc_eq_none.mpr (hfresh c (List.mem_cons_self _ _))
      have hstep : passo2 (vistas, out) c
          = (vistas ++ [(chave c, c)], out ++ [c]) := by
        simp [passo2, hnone]
      rw [hstep]
      simp only [List.map_cons, List.nodup_cons] at hnd
      rw [ih (vistas ++ [(chave c, c)]) (out ++ [c]) ?_ hnd.2]
      · simp
      · intro x hx
        simp only [List.map_append, List.map_cons, List.map_nil,
          List.mem_append, List.mem_cons]
        push_neg
        refine ⟨hfresh x (List.mem_cons_of_mem _ hx), ?_, ?_⟩
        · intro hcontra
          exact hnd.1 (hcontra ▸ List.mem_map_of_mem chave hx)
        · simp
      
theorem deduplicaPorChave_id (l : List Cidade)
    (hnd : (l.map chave).Nodup) : deduplicaPorChave l = l := by
  rw [deduplicaPorChave, foldl_passo2_id l [] [] (by simp) hnd]
  simp

theorem atualizaAssoc_id_consistente :
    ∀ (m : List (ℕ × Cidade)) (c : Cidade),
      (∀ p ∈ m, p.2.id = p.1) →
      ∀ p ∈ atualizaAssoc m c.id c, p.2.id = p.1 := by
  intro m
  induction m with
  | nil =>
      intro c _ p hp
      simp only [atualizaAssoc, List.mem_singleton] at hp
      simp [hp]
  | cons q resto ih =>
      intro c h2 p hp
      by_cases hq : q.1 = c.id
      · simp only [atualizaAssoc, if_pos hq, List.mem_cons] at hp
        rcases hp with hp | hp
        · simp [hp]
        · exact h2 p (List.mem_cons_of_mem _ hp)
      · simp only [atualizaAssoc, if_neg hq, List.mem_cons] at hp
        rcases hp with hp | hp
        · exact h2 p (by simp [hp])
        · exact ih c (fun r hr => h2 r (List.mem_cons_of_mem _ hr)) p hp

theorem foldl_insereId_inv :
    ∀ (l : List Cidade) (m : List (ℕ × Cidade)),
      (m.map Prod.fst).Nodup → (∀ p ∈ m, p.2.id = p.1) →
      (((l.foldl (fun m c => atualizaAssoc m c.id c) m).map Prod.fst).Nodup ∧
       ∀ p ∈ l.foldl (fun m c => atualizaAssoc m c.id c) m, p.2.id = p.1) := by
  intro l
  induction l with
  | nil => intro m h1 h2; exact ⟨h1, h2⟩
  | cons c rest ih =>
      intro m h1 h2
      rw [List.foldl_cons]
      exact ih _ (atualizaAssoc_keys_nodup h1) (atualizaAssoc_id_consistente m c h2)

theorem deduplicaPorId_ids_nodup (l : List Cidade) :
    ((deduplicaPorId l).map Cidade.id).Nodup := by
  obtain ⟨h1, h2⟩ := foldl_insereId_inv l [] (by simp) (by simp)
  rw [deduplicaPorId, List.map_map]
  have : ((l.foldl (fun m c => atualizaAssoc m c.id c) []).map
      (Cidade.id ∘ Prod.snd))
      = ((l.foldl (fun m c => atualizaAssoc m c.id c) []).map Prod.fst) := by
    apply List.map_congr_left
    intro p hp
    exact h2 p hp
  rw [this]
  exact h1

theorem foldl_insereId_fresh :
    ∀ (l : List Cidade) (m : List (ℕ × Cidade)),
      ((m.map Prod.fst ++ l.map Cidade.id).Nodup) →
      l.foldl (fun m c => atualizaAssoc m c.id c) m
        = m ++ (l.map fun c => (c.id, c)) := by
  intro l
  induction l with
  | nil => intro m _; simp
  | cons c rest ih =>
      intro m hnd
      rw [List.foldl_cons]
      have hfresh : c.id ∉ m.map Prod.fst := by
        intro hcontra
        rw [List.nodup_append] at hnd
        exact hnd.2.2 hcontra (by simp)
      rw [atualizaAssoc_fresh hfresh]
      rw [ih (m ++ [(c.id, c)]) ?_]
      · simp
      · simp only [List.map_append, List.map_cons, List.map_nil]
        rw [List.append_assoc]
        simpa using hnd

theorem deduplicaPorId_id (l : List Cidade)
    (hnd : (l.map Cidade.id).Nodup) : deduplicaPorId l = l := by
  rw [deduplicaPorId, foldl_insereId_fresh l [] (by simpa using hnd)]
  simp only [List.nil_append, List.map_map]
  rw [show (Prod.snd ∘ fun c : Cidade => (c.id, c)) = id from rfl, List.map_id]

/-- C9.  The full two-pass deduplication is idempotent: the output of
`deduplicaCidades` has pairwise distinct ids (so the id pass leaves it
unchanged) and pairwise distinct composite keys (so the composite pass
leaves it unchanged), hence running the whole procedure on its own output
returns it verbatim. -/
theorem deduplicaCidades_idempotente (l : List Cidade) :
    deduplicaCidades (deduplicaCidades l) = deduplicaCidades l := by
  have hchave : ((deduplicaCidades l).map chave).Nodup :=
    (deduplicaPorChave_inv (deduplicaPorId l)).1
  have hsub : ∀ x ∈ deduplicaCidades l, x ∈ deduplicaPorId l :=
    (deduplicaPorChave_inv (deduplicaPorId l)).2
  have hids1 : ((deduplicaPorId l).map Cidade.id).Nodup :=
    deduplicaPorId_ids_nodup l
  have hnodup : (deduplicaCidades l).Nodup := List.Nodup.of_map chave hchave
  have hids : ((deduplicaCidades l).map Cidade.id).Nodup := by
    refine List.Nodup.map_on ?_ hnodup
    intro x hx y hy hxy
    exact List.inj_on_of_nodup_map hids1 (hsub x hx) (hsub y hy) hxy
  rw [deduplicaCidades, deduplicaPorId_id _ hids,
    deduplicaPorChave_id _ hchave]

/-- Counterexample to C6 as stated.  Two records with the same composite
key but also the same `id` (the upstream records of one city may repeat
across overlapping pages): the id pass keeps the *last-seen* record per id
regardless of population, so with the larger population arriving first the
whole deduplication keeps the smaller one.  Here both records have key
`("x", 0, 0)`, populations 12000 then 10000, and the output is the
population-10000 record. -/
theorem deduplicaCidades_mesmo_id_contraexemplo :
    chave ⟨1, "x", "", 0, 0, 12000⟩ = chave ⟨1, "x", "", 0, 0, 10000⟩ ∧
    (10000 : ℚ) < 12000 ∧
    deduplicaCidades [⟨1, "x", "", 0, 0, 12000⟩, ⟨1, "x", "", 0, 0, 10000⟩]
      = [⟨1, "x", "", 0, 0, 10000⟩] := by
  refine ⟨rfl, by norm_num, ?_⟩
  simp [deduplicaCidades, deduplicaPorId, deduplicaPorChave, passo2,
    buscarAssoc, atualizaAssoc, substituirPrimeiro]

/-- C6 (amended).  For two input records with *distinct ids* that map to
the same composite key and have different populations, the two-pass
deduplication keeps exactly the record with the larger population,
whichever of the two orders they arrive in. -/
theorem deduplicaCidades_populacao_maior_vence (a b : Cidade)
    (hid : a.id ≠ b.id) (hk : chave a = chave b)
    (hp : a.population < b.population) :
    deduplicaCidades [a, b] = [b] ∧ deduplicaCidades [b, a] = [b] := by
  have hid2 : ¬ b.id = a.id := fun h => hid h.symm
  have hpass1ab : deduplicaPorId [a, b] = [a, b] := by
    simp [deduplicaPorId, atualizaAssoc, hid]
  have hpass1ba : deduplicaPorId [b, a] = [b, a] := by
    simp [deduplicaPorId, atualizaAssoc, hid2]
  constructor
  · rw [deduplicaCidades, hpass1ab]
    simp only [deduplicaPorChave, List.foldl_cons, List.foldl_nil]
    have h1 : passo2 ([], []) a = ([(chave a, a)], [a]) := by
      simp [passo2, buscarAssoc]
    rw [h1]
    have h2 : buscarAssoc [(chave a, a)] (chave b) = some a := by
      simp [buscarAssoc, hk]
    have h3 : passo2 ([(chave a, a)], [a]) b = ([(chave b, b)], [b]) := by
      simp only [passo2, h2]
      rw [if_pos (show populacaoOuZero a.population < b.population from hp)]
      rw [show atualizaAssoc [(chave a, a)] (chave b) b = [(chave b, b)] by
            simp [atualizaAssoc, hk],
          show substituirPrimeiro [a] a b = [b] by simp [substituirPrimeiro]]
    rw [h3]
  · rw [deduplicaCidades, hpass1ba]
    simp only [deduplicaPorChave, List.foldl_cons, List.foldl_nil]
    have h1 : passo2 ([], []) b = ([(chave b, b)], [b]) := by
      simp [passo2, buscarAssoc]
    rw [h1]
    have h2 : buscarAssoc [(chave b, b)] (chave a) = some b := by
      simp [buscarAssoc, hk]
    have h3 : passo2 ([(chave b, b)], [b]) a = ([(chave b, b)], [b]) := by
      simp only [passo2, h2]
      rw [if_neg (show ¬ populacaoOuZero b.population < a.population from
            not_lt.mpr hp.le)]
    rw [h3]

/-- Witness for amended C6: records with ids 1 and 2, the same key
`("x", 0, 0)` and populations 5 and 9; both arrival orders keep the
population-9 record. -/
theorem deduplicaCidades_populacao_maior_vence_witness :
    deduplicaCidades [⟨1, "x", "", 0, 0, 5⟩, ⟨2, "x", "", 0, 0, 9⟩]
        = [⟨2, "x", "", 0, 0, 9⟩] ∧
    deduplicaCidades [⟨2, "x", "", 0, 0, 9⟩, ⟨1, "x", "", 0, 0, 5⟩]
        = [⟨2, "x", "", 0, 0, 9⟩] :=
  deduplicaCidades_populacao_maior_vence ⟨1, "x", "", 0, 0, 5⟩
    ⟨2, "x", "", 0, 0, 9⟩ (by decide) rfl (by norm_num)

/-- C10.  In the composite-key pass (the block at
`kmeansService.js:418-437`), a later record replaces the kept record for
its key only when its population is strictly larger: with exactly equal
populations the first-seen record is kept, and in general a non-greater
population leaves both the key map and the kept list unchanged. -/
theorem deduplicaPorChave_empate_mantem_primeira (a b : Cidade)
    (hk : chave a = chave b) (hp : a.population = b.population) :
    deduplicaPorChave [a, b] = [a] ∧
    ∀ vistas out c e, buscarAssoc vistas (chave c) = some e →
      ¬ populacaoOuZero e.population < c.population →
      passo2 (vistas, out) c = (vistas, out) := by
  constructor
  · simp only [deduplicaPorChave, List.foldl_cons, List.foldl_nil]
    have h1 : passo2 ([], []) a = ([(chave a, a)], [a]) := by
      simp [passo2, buscarAssoc]
    rw [h1]
    have h2 : buscarAssoc [(chave a, a)] (chave b) = some a := by
      simp [buscarAssoc, hk]
    have h3 : passo2 ([(chave a, a)], [a]) b = ([(chave a, a)], [a]) := by
      simp only [passo2, h2]
      rw [if_neg (show ¬ populacaoOuZero a.population < b.population from
            hp ▸ lt_irrefl _)]
    rw [h3]
  · intro vistas out c e hb hnot
    simp [passo2, hb, hnot]

/-- Witness for C10: two records with the same key `("x", 0, 0)` and equal
populations 5; the pass keeps the first. -/
theorem deduplicaPorChave_empate_mantem_primeira_witness :
    deduplicaPorChave [⟨1, "x", "", 0, 0, 5⟩, ⟨2, "x", "", 0, 0, 5⟩]
        = [⟨1, "x", "", 0, 0, 5⟩] ∧
    ∀ vistas out c e, buscarAssoc vistas (chave c) = some e →
      ¬ populacaoOuZero e.population < c.population →
      passo2 (vistas, out) c = (vistas, out) :=
  deduplicaPorChave_empate_mantem_primeira ⟨1, "x", "", 0, 0, 5⟩
    ⟨2, "x", "", 0, 0, 5⟩ rfl rfl

/-! ## Partitioned k-means engine (C2, C5, C7)

`kmeans` / `initializeCentroids` / `hasConverged` in
`src/app/public/js/services/kmeansService.js`, together with the
assignment and centroid-recomputation handlers of
`src/app/public/js/workers/kmeansWorker.js`.

`Math.random()` is a parameter `r : ℕ → ℚ` indexed by the order of the
calls (three per centroid: latitude, longitude, population).  Distances:
the sources compare `Math.sqrt(s)` values against each other and against
the positive threshold `0.01`; since the square root is strictly monotone
on nonnegatives, every such comparison equals the comparison of the
squared values, which we use so the embedding stays computable over `ℚ`
(`distSqRaw` is the square of the worker's `euclideanDistance`, raw in
all three dimensions; `distSqServ` is the square of the service's
`euclideanDistance` used by `hasConverged`, which rescales population by
`1 / 50000000`; the convergence threshold `0.01` becomes `1/10000`).
The assignment workers partition the index range and their results are
concatenated in worker order, which preserves point order, so the
assignment is modelled directly over the full index range. -/

/-- A clustering point `{latitude, longitude, population}`; the source's
back-reference to the originating record is display-only and not part of
the algorithm. -/
structure Ponto where
  latitude : ℚ
  longitude : ℚ
  population : ℚ
deriving DecidableEq, Repr

/-- `Math.min(...xs)` over a non-empty spread (`0` is an arbitrary value
for the unused empty case). -/
def listMin : List ℚ → ℚ
  | [] => 0
  | x :: xs => xs.foldl min x

/-- `Math.max(...xs)` over a non-empty spread. -/
def listMax : List ℚ → ℚ
  | [] => 0
  | x :: xs => xs.foldl max x

def minLat (pts : List Ponto) : ℚ := listMin (pts.map Ponto.latitude)
def maxLat (pts : List Ponto) : ℚ := listMax (pts.map Ponto.latitude)
def minLon (pts : List Ponto) : ℚ := listMin (pts.map Ponto.longitude)
def maxLon (pts : List Ponto) : ℚ := listMax (pts.map Ponto.longitude)
def minPop (pts : List Ponto) : ℚ := listMin (pts.map Ponto.population)
def maxPop (pts : List Ponto) : ℚ := listMax (pts.map Ponto.population)

/-- `initializeCentroids(points, k)`: `k` random centroids, each
coordinate drawn as `min + Math.random() * (max - min)` over the raw
per-dimension ranges of the input.  Returns the next unused index into
the random stream as well. -/
def initializeCentroids (pts : List Ponto) (k : ℕ) (r : ℕ → ℚ)
    (inicio : ℕ) : List Ponto × ℕ :=
  ((List.range k).map fun i =>
    { latitude := minLat pts + r (inicio + 3 * i) * (maxLat pts - minLat pts)
      longitude :=
        minLon pts + r (inicio + 3 * i + 1) * (maxLon pts - minLon pts)
      population :=
        minPop pts + r (inicio + 3 * i + 2) * (maxPop pts - minPop pts) },
   inicio + 3 * k)

/-- Square of the worker's `euclideanDistance` (kmeansWorker.js): raw
differences in all three dimensions. -/
def distSqRaw (p q : Ponto) : ℚ :=
  (p.latitude - q.latitude) * (p.latitude - q.latitude) +
    (p.longitude - q.longitude) * (p.longitude - q.longitude) +
    (p.population - q.population) * (p.population - q.population)

/-- Square of the service's `euclideanDistance` (kmeansService.js): raw
latitude/longitude differences, population divided by
`MAX_POPULATION = 50000000`. -/
def distSqServ (p q : Ponto) : ℚ :=
  (p.latitude - q.latitude) * (p.latitude - q.latitude) +
    (p.longitude - q.longitude) * (p.longitude - q.longitude) +
    (p.population / 50000000 - q.population / 50000000) *
      (p.population / 50000000 - q.population / 50000000)

/-- The worker's nearest-centroid scan: `closestCentroid = 0`,
`minDistance = Infinity` (`none`), then `distance < minDistance` keeps the
earlier index on ties. -/
def maisProximoAux (p : Ponto) :
    List Ponto → ℕ → ℕ → Option ℚ → ℕ
  | [], _, melhor, _ => melhor
  | c :: resto, j, melhor, melhorDist =>
      match melhorDist with
      | none => maisProximoAux p resto (j + 1) j (some (distSqRaw p c))
      | some m =>
          if distSqRaw p c < m then
            maisProximoAux p resto (j + 1) j (some (distSqRaw p c))
          else maisProximoAux p resto (j + 1) melhor (some m)

/-- Index of the centroid nearest to `p`. -/
def indiceMaisProximo (p : Ponto) (centroides : List Ponto) : ℕ :=
  maisProximoAux p centroides 0 0 none

/-- Group the point indices by assigned centroid
(`clusters[assignment.centroidIndex].push(assignment.pointIndex)`; the
assignments arrive in ascending point order). -/
def computeClusters (pts centroides : List Ponto) (k : ℕ) :
    List (List ℕ) :=
  (List.range k).map fun j =>
    (List.range pts.length).filter fun i =>
      indiceMaisProximo (pts.getD i ⟨0, 0, 0⟩) centroides = j

/-- Mean of one cluster's member points (`calculate_new_centroids` in the
worker): `null` for an empty cluster, otherwise the coordinate-wise
mean. -/
def mediaCluster (cl : List ℕ) (pts : List Ponto) : Option Ponto :=
  if cl.isEmpty then none
  else some
    { latitude :=
        (cl.map fun i => (pts.getD i ⟨0, 0, 0⟩).latitude).sum / cl.length
      longitude :=
        (cl.map fun i => (pts.getD i ⟨0, 0, 0⟩).longitude).sum / cl.length
      population :=
        (cl.map fun i => (pts.getD i ⟨0, 0, 0⟩).population).sum / cl.length }

/-- `calculateNewCentroids(clusters, points)`. -/
def calculateNewCentroids (clusters : List (List ℕ)) (pts : List Ponto) :
    List (Option Ponto) :=
  clusters.map fun cl => mediaCluster cl pts

/-- The null-centroid replacement in `kmeans`: an empty cluster keeps the
previous iteration's centroid.  (The source's further random fallback for
a missing previous centroid is unreachable — `centroids` always holds `k`
non-null entries.) -/
def substituirNulos (novos : List (Option Ponto))
    (anteriores : List Ponto) : List Ponto :=
  (novos.zip anteriores).map fun par => par.1.getD par.2

/-- `hasConverged(oldCentroids, newCentroids, threshold)`: fails exactly
when some pair is at `distance > threshold`, i.e. succeeds when every
pair satisfies `distance ≤ threshold` — here in squared form.  (The
source's null-entry skips never fire: both lists hold `k` points.) -/
def hasConverged (antigos novos : List Ponto) (limiarSq : ℚ) : Bool :=
  (antigos.zip novos).all fun par =>
    decide (distSqServ par.1 par.2 ≤ limiarSq)

/-- Result of `kmeans`. -/
structure ResultadoKmeans where
  clusters : List (List ℕ)
  centroids : List Ponto
  iterations : ℕ
  converged : Bool
deriving DecidableEq, Repr

/-- The iteration loop of `kmeans`, with `fuel = maxIterations -
iteration` making the `for` loop structural; fuel exhaustion performs the
final assignment pass and reports non-convergence. -/
def kmeansLoop (pts : List Ponto) (k : ℕ) :
    List Ponto → ℕ → ℕ → ResultadoKmeans
  | centroides, iteracao, 0 =>
      ⟨computeClusters pts centroides k, centroides, iteracao, false⟩
  | centroides, iteracao, fuel + 1 =>
      let clusters := computeClusters pts centroides k
      let novos :=
        substituirNulos (calculateNewCentroids clusters pts) centroides
      if hasConverged centroides novos (1 / 10000) then
        ⟨clusters, novos, iteracao + 1, true⟩
      else kmeansLoop pts k novos (iteracao + 1) fuel

/-- `kmeans(points, k, maxIterations)`: reject when `points.length < k`,
otherwise run from random initial centroids. -/
def kmeans (pts : List Ponto) (k maxIteracoes : ℕ) (r : ℕ → ℚ) :
    Except String ResultadoKmeans :=
  if pts.length < k then
    .error "Número de pontos deve ser maior ou igual a k"
  else .ok (kmeansLoop pts k (initializeCentroids pts k r 0).1 0 maxIteracoes)

/-- All three coordinates within the raw per-dimension min/max bounds of
`pts`. -/
def dentroLimites (pts : List Ponto) (c : Ponto) : Prop :=
  minLat pts ≤ c.latitude ∧ c.latitude ≤ maxLat pts ∧
  minLon pts ≤ c.longitude ∧ c.longitude ≤ maxLon pts ∧
  minPop pts ≤ c.population ∧ c.population ≤ maxPop pts

theorem foldl_min_le :
    ∀ (xs : List ℚ) (a : ℚ),
      xs.foldl min a ≤ a ∧ ∀ x ∈ xs, xs.foldl min a ≤ x := by
  intro xs
  induction xs with
  | nil => intro a; exact ⟨le_refl a, by simp⟩
  | cons y ys ih =>
      intro a
      rw [List.foldl_cons]
      obtain ⟨h1, h2⟩ := ih (min a y)
      refine ⟨le_trans h1 (min_le_left _ _), ?_⟩
      intro x hx
      rcases List.mem_cons.mp hx with hx | hx
      · subst hx; exact le_trans h1 (min_le_right _ _)
      · exact h2 x hx

theorem le_foldl_max :
    ∀ (xs : List ℚ) (a : ℚ),
      a ≤ xs.foldl max a ∧ ∀ x ∈ xs, x ≤ xs.foldl max a := by
  intro xs
  induction xs with
  | nil => intro a; exact ⟨le_refl a, by simp⟩
  | cons y ys ih =>
      intro a
      rw [List.foldl_cons]
      obtain ⟨h1, h2⟩ := ih (max a y)
      refine ⟨le_trans (le_max_left _ _) h1, ?_⟩
      intro x hx
      rcases List.mem_cons.mp hx with hx | hx
      · subst hx; exact le_trans (le_max_right _ _) h1
      · exact h2 x hx

theorem listMin_le {l : List ℚ} {x : ℚ} (hx : x ∈ l) : listMin l ≤ x := by
  cases l with
  | nil => cases hx
  | cons y ys =>
      rcases List.mem_cons.mp hx with h | h
      · exact h ▸ (foldl_min_le ys y).1
      · exact (foldl_min_le ys y).2 x h

theorem le_listMax {l : List ℚ} {x : ℚ} (hx : x ∈ l) : x ≤ listMax l := by
  cases l with
  | nil => cases hx
  | cons y ys =>
      rcases List.mem_cons.mp hx with h | h
      · exact h ▸ (le_foldl_max ys y).1
      · exact (le_foldl_max ys y).2 x h

theorem ponto_dentroLimites {pts : List Ponto} {x : Ponto} (hx : x ∈ pts) :
    dentroLimites pts x :=
  ⟨listMin_le (List.mem_map_of_mem _ hx), le_listMax (List.mem_map_of_mem _ hx),
   listMin_le (List.mem_map_of_mem _ hx), le_listMax (List.mem_map_of_mem _ hx),
   listMin_le (List.mem_map_of_mem _ hx), le_listMax (List.mem_map_of_mem _ hx)⟩

theorem minDim_le_maxDim {pts : List Ponto} (hne : pts ≠ [])
    (f : Ponto → ℚ) : listMin (pts.map f) ≤ listMax (pts.map f) := by
  cases pts with
  | nil => exact absurd rfl hne
  | cons p resto =>
      have h1 : f p ∈ (p :: resto).map f := by simp
      exact le_trans (listMin_le h1) (le_listMax h1)

theorem interpolacao_limites {mn mx t : ℚ} (h : mn ≤ mx) (h0 : 0 ≤ t)
    (h1 : t ≤ 1) : mn ≤ mn + t * (mx - mn) ∧ mn + t * (mx - mn) ≤ mx := by
  constructor <;> nlinarith

theorem initializeCentroids_length (pts : List Ponto) (k : ℕ) (r : ℕ → ℚ)
    (inicio : ℕ) : (initializeCentroids pts k r inicio).1.length = k := by
  simp [initializeCentroids]

theorem initializeCentroids_limites (pts : List Ponto) (k : ℕ) (r : ℕ → ℚ)
    (inicio : ℕ) (hne : pts ≠ []) (hr : ∀ n, 0 ≤ r n ∧ r n ≤ 1) :
    ∀ c ∈ (initializeCentroids pts k r inicio).1, dentroLimites pts c := by
  intro c hc
  simp only [initializeCentroids, List.mem_map, List.mem_range] at hc
  obtain ⟨i, _, rfl⟩ := hc
  obtain ⟨hlat1, hlat2⟩ := interpolacao_limites (minDim_le_maxDim hne Ponto.latitude)
    (hr (inicio + 3 * i)).1 (hr (inicio + 3 * i)).2
  obtain ⟨hlon1, hlon2⟩ := interpolacao_limites (minDim_le_maxDim hne Ponto.longitude)
    (hr (inicio + 3 * i + 1)).1 (hr (inicio + 3 * i + 1)).2
  obtain ⟨hpop1, hpop2⟩ := interpolacao_limites (minDim_le_maxDim hne Ponto.population)
    (hr (inicio + 3 * i + 2)).1 (hr (inicio + 3 * i + 2)).2
  exact ⟨hlat1, hlat2, hlon1, hlon2, hpop1, hpop2⟩

theorem soma_div_limites {l : List ℚ} {a b : ℚ} (hne : l ≠ [])
    (h : ∀ x ∈ l, a ≤ x ∧ x ≤ b) :
    a ≤ l.sum / l.length ∧ l.sum / l.length ≤ b := by
  have hn : (0 : ℚ) < l.length := by
    have := List.length_pos.mpr hne
    exact_mod_cast this
  have hub : l.sum ≤ l.length • b :=
    List.sum_le_card_nsmul l b fun x hx => (h x hx).2
  have hlb : l.length • a ≤ l.sum :=
    List.card_nsmul_le_sum l a fun x hx => (h x hx).1
  rw [nsmul_eq_mul] at hub hlb
  constructor
  · rw [le_div_iff hn]; linarith
  · rw [div_le_iff hn]; linarith

theorem getD_mem {pts : List Ponto} {i : ℕ} (hi : i < pts.length) :
    pts.getD i ⟨0, 0, 0⟩ ∈ pts := by
  rw [List.getD_eq_getElem pts _ hi]
  exact List.getElem_mem hi

theorem mediaCluster_limites {cl : List ℕ} {pts : List Ponto} {m : Ponto}
    (hcl : ∀ i ∈ cl, i < pts.length)
    (hm : mediaCluster cl pts = some m) : dentroLimites pts m := by
  rw [mediaCluster] at hm
  by_cases hne : cl.isEmpty
  · rw [if_pos hne] at hm; cases hm
  · rw [if_neg hne] at hm
    obtain rfl := Option.some_inj.mp hm
    have hcl' : cl ≠ [] := by
      intro h; exact hne (by simp [h])
    have hmapne : ∀ f : Ponto → ℚ, cl.map (fun i => f (pts.getD i ⟨0, 0, 0⟩)) ≠ [] := by
      intro f h
      exact hcl' (List.map_eq_nil.mp h)
    have hlat := soma_div_limites (a := minLat pts) (b := maxLat pts)
      (hmapne Ponto.latitude) ?_
    have hlon := soma_div_limites (a := minLon pts) (b := maxLon pts)
      (hmapne Ponto.longitude) ?_
    have hpop := soma_div_limites (a := minPop pts) (b := maxPop pts)
      (hmapne Ponto.population) ?_
    · refine ⟨?_, ?_, ?_, ?_, ?_, ?_⟩ <;>
        simp only [List.length_map] at hlat hlon hpop
      · exact hlat.1
      · exact hlat.2
      · exact hlon.1
      · exact hlon.2
      · exact hpop.1
      · exact hpop.2
    · intro x hx
      obtain ⟨i, hi, rfl⟩ := List.mem_map.mp hx
      have := ponto_dentroLimites (getD_mem (hcl i hi))
      exact ⟨this.2.2.2.2.1, this.2.2.2.2.2⟩
    · intro x hx
      obtain ⟨i, hi, rfl⟩ := List.mem_map.mp hx
      have := ponto_dentroLimites (getD_mem (hcl i hi))
      exact ⟨this.2.2.1, this.2.2.2.1⟩
    · intro x hx
      obtain ⟨i, hi, rfl⟩ := List.mem_map.mp hx
      have := ponto_dentroLimites (getD_mem (hcl i hi))
      exact ⟨this.1, this.2.1⟩

theorem computeClusters_length (pts centroides : List Ponto) (k : ℕ) :
    (computeClusters pts centroides k).length = k := by
  simp [computeClusters]

theorem computeClusters_indices {pts centroides : List Ponto} {k : ℕ}
    {cl : List ℕ} (hcl : cl ∈ computeClusters pts centroides k) :
    ∀ i ∈ cl, i < pts.length := by
  simp only [computeClusters, List.mem_map, List.mem_range] at hcl
  obtain ⟨j, _, rfl⟩ := hcl
  intro i hi
  have := List.mem_filter.mp hi
  exact List.mem_range.mp this.1

theorem substituirNulos_length {novos : List (Option Ponto)}
    {anteriores : List Ponto} (h : novos.length = anteriores.length) :
    (substituirNulos novos anteriores).length = anteriores.length := by
  simp [substituirNulos, h]

theorem substituirNulos_limites {pts : List Ponto}
    {clusters : List (List ℕ)} {anteriores : List Ponto}
    (hcls : ∀ cl ∈ clusters, ∀ i ∈ cl, i < pts.length)
    (hant : ∀ c ∈ anteriores, dentroLimites pts c) :
    ∀ c ∈ substituirNulos (calculateNewCentroids clusters pts) anteriores,
      dentroLimites pts c := by
  intro c hc
  simp only [substituirNulos, List.mem_map] at hc
  obtain ⟨par, hpar, rfl⟩ := hc
  obtain ⟨h1, h2⟩ := List.mem_zip hpar
  cases hop : par.1 with
  | none => simpa [hop] using hant par.2 h2
  | some m =>
      simp only [hop, Option.getD_some]
      rw [hop] at h1
      simp only [calculateNewCentroids, List.mem_map] at h1
      obtain ⟨cl, hcl, hmedia⟩ := h1
      exact mediaCluster_limites (hcls cl hcl) hmedia

theorem kmeansLoop_spec (pts : List Ponto) (k : ℕ) :
    ∀ (fuel : ℕ) (centroides : List Ponto) (iteracao : ℕ),
      centroides.length = k →
      (∀ c ∈ centroides, dentroLimites pts c) →
      ((kmeansLoop pts k centroides iteracao fuel).centroids.length = k ∧
       (∀ c ∈ (kmeansLoop pts k centroides iteracao fuel).centroids,
          dentroLimites pts c) ∧
       (kmeansLoop pts k centroides iteracao fuel).iterations
         ≤ iteracao + fuel) := by
  intro fuel
  induction fuel with
  | zero =>
      intro centroides iteracao hlen hlim
      exact ⟨hlen, hlim, le_refl _⟩
  | succ fuel ih =>
      intro centroides iteracao hlen hlim
      rw [kmeansLoop]
      have hnovoslen :
          (substituirNulos
            (calculateNewCentroids (computeClusters pts centroides k) pts)
            centroides).length = k := by
        rw [substituirNulos_length]
        · exact hlen
        · simp [calculateNewCentroids, computeClusters_length, hlen]
      have hnovoslim :
          ∀ c ∈ substituirNulos
              (calculateNewCentroids (computeClusters pts centroides k) pts)
              centroides, dentroLimites pts c :=
        substituirNulos_limites (fun cl hcl => computeClusters_indices hcl) hlim
      by_cases hconv : hasConverged centroides
          (substituirNulos
            (calculateNewCentroids (computeClusters pts centroides k) pts)
            centroides) (1 / 10000) = true
      · simp only [hconv, if_true]
        exact ⟨hnovoslen, hnovoslim, by omega⟩
      · simp only [Bool.not_eq_true] at hconv
        simp only [hconv, Bool.false_eq_true, if_false]
        obtain ⟨h1, h2, h3⟩ := ih _ (iteracao + 1) hnovoslen hnovoslim
        exact ⟨h1, h2, by omega⟩

/-- Modelled from the spec's words (the refinement target of C2):
membership in the normalized unit cube `[0,1]^3` in which the spec says
the random centroids are initialized. -/
def noCuboUnitario (c : Ponto) : Prop :=
  0 ≤ c.latitude ∧ c.latitude ≤ 1 ∧ 0 ≤ c.longitude ∧ c.longitude ≤ 1 ∧
  0 ≤ c.population ∧ c.population ≤ 1

/-- Counterexample to C2 as stated.  `kmeans` performs no min-max
normalization: on the raw input `[(0,0,0), (10,20,40)]` with `k = 1` and
every `Math.random()` draw equal to `1/2`, `initializeCentroids` produces
the centroid `(5, 10, 20)`, which lies outside the normalized `[0,1]^3`
cube the claim asserts centroids are drawn from (its latitude is `5`). -/
theorem initializeCentroids_fora_do_cubo_normalizado :
    (initializeCentroids [⟨0, 0, 0⟩, ⟨10, 20, 40⟩] 1 (fun _ => 1/2) 0).1
      = [⟨5, 10, 20⟩] ∧ ¬ noCuboUnitario ⟨5, 10, 20⟩ := by
  constructor
  · simp only [initializeCentroids, show List.range 1 = [0] from rfl,
      List.map_cons, List.map_nil, minLat, maxLat, minLon, maxLon, minPop,
      maxPop, listMin, listMax, List.foldl_cons, List.foldl_nil]
    norm_num [min_def, max_def, Ponto.mk.injEq]
  · simp only [noCuboUnitario, not_and, not_le]
    intro h1
    norm_num

/-- C2 (amended).  `kmeans` does not normalize its input:
`initializeCentroids` draws each of the `k` centroids uniformly inside
the *raw* per-dimension min/max ranges of the input points (every
coordinate `min + random * (max - min)` stays within `[min, max]` for
random draws in `[0,1]`), the assignment distance (`distSqRaw`, the
worker's `euclideanDistance`) is Euclidean over the three raw dimensions,
and only the convergence distance (`distSqServ`) rescales population by
`1/50000000`. -/
theorem initializeCentroids_intervalos_brutos (pts : List Ponto) (k : ℕ)
    (r : ℕ → ℚ) (inicio : ℕ) (hne : pts ≠ [])
    (hr : ∀ n, 0 ≤ r n ∧ r n ≤ 1) :
    (initializeCentroids pts k r inicio).1.length = k ∧
    ∀ c ∈ (initializeCentroids pts k r inicio).1, dentroLimites pts c :=
  ⟨initializeCentroids_length pts k r inicio,
   initializeCentroids_limites pts k r inicio hne hr⟩

/-- Witness for amended C2: one point at the origin, `k = 1`, all random
draws `0`. -/
theorem initializeCentroids_intervalos_brutos_witness :
    (initializeCentroids [⟨0, 0, 0⟩] 1 (fun _ => 0) 0).1.length = 1 ∧
    ∀ c ∈ (initializeCentroids [⟨0, 0, 0⟩] 1 (fun _ => 0) 0).1,
      dentroLimites [⟨0, 0, 0⟩] c :=
  initializeCentroids_intervalos_brutos [⟨0, 0, 0⟩] 1 (fun _ => 0) 0
    (List.cons_ne_nil _ _) (fun _ => ⟨le_refl 0, by norm_num⟩)

/-- Counterexample to C5 as stated.  A pair of centroids at Euclidean
distance exactly the threshold `0.01` — their squared convergence
distance equals `(1/100) * (1/100) = 1/10000` — IS accepted as converged
by `hasConverged`: the source only rejects on the strict comparison
`distance > threshold`. -/
theorem hasConverged_no_limiar_contraexemplo :
    distSqServ ⟨0, 0, 0⟩ ⟨1/100, 0, 0⟩ = (1/100) * (1/100) ∧
    hasConverged [⟨0, 0, 0⟩] [⟨1/100, 0, 0⟩] (1/10000) = true := by
  constructor
  · norm_num [distSqServ]
  · simp only [hasConverged, List.zip_cons_cons, List.zip_nil_left,
      List.all_cons, List.all_nil, Bool.and_true, decide_eq_true_eq]
    norm_num [distSqServ]

/-- C5 (amended).  The convergence check is threshold-inclusive:
`hasConverged` succeeds exactly when every corresponding pair of old and
new centroids has (squared) convergence distance `≤` the (squared)
threshold — pairs at distance exactly the threshold ARE converged, and
only a pair at distance strictly greater fails the check. -/
theorem hasConverged_limiar_inclusivo (antigos novos : List Ponto)
    (limiarSq : ℚ) (hlen : antigos.length = novos.length) :
    hasConverged antigos novos limiarSq = true ↔
      ∀ (i : ℕ) (h1 : i < antigos.length) (h2 : i < novos.length),
        distSqServ antigos[i] novos[i] ≤ limiarSq := by
  rw [hasConverged, List.all_eq_true]
  constructor
  · intro hall i h1 h2
    have hz : i < (antigos.zip novos).length := by
      rw [List.length_zip]; omega
    have hmem : (antigos.zip novos)[i] ∈ antigos.zip novos :=
      List.getElem_mem hz
    have hthis := hall _ hmem
    simp only [List.getElem_zip, decide_eq_true_iff] at hthis
    exact hthis
  · intro hf par hpar
    obtain ⟨i, hi, rfl⟩ := List.mem_iff_getElem.mp hpar
    have h1 : i < antigos.length := by
      rw [List.length_zip] at hi; omega
    have h2 : i < novos.length := by
      rw [List.length_zip] at hi; omega
    simp only [List.getElem_zip, decide_eq_true_iff]
    exact hf i h1 h2

/-- Witness for amended C5: the one-pair instance at exactly the
threshold. -/
theorem hasConverged_limiar_inclusivo_witness :
    hasConverged [(⟨0, 0, 0⟩ : Ponto)] [⟨1/100, 0, 0⟩] (1/10000) = true ↔
      ∀ (i : ℕ) (h1 : i < ([(⟨0, 0, 0⟩ : Ponto)]).length)
        (h2 : i < ([(⟨1/100, 0, 0⟩ : Ponto)]).length),
        distSqServ ([(⟨0, 0, 0⟩ : Ponto)])[i]
          ([(⟨1/100, 0, 0⟩ : Ponto)])[i] ≤ 1/10000 :=
  hasConverged_limiar_inclusivo [⟨0, 0, 0⟩] [⟨1/100, 0, 0⟩] (1/10000) rfl

/-- C7.  For `k ≥ 1` and random draws in `[0,1]`: on an input with fewer
than `k` points `kmeans` throws (`Except.error`) without computing; on an
input with at least `k` points it returns a result whose iteration count
is at most `maxIterations` and whose centroid list holds exactly `k`
(non-null, by construction) centroids, each with latitude, longitude and
population inside the per-dimension min/max bounds of the input points. -/
theorem kmeans_termina_e_limita (pts : List Ponto) (k maxIteracoes : ℕ)
    (r : ℕ → ℚ) (hk : 1 ≤ k) (hr : ∀ n, 0 ≤ r n ∧ r n ≤ 1) :
    (pts.length < k → ∃ msg, kmeans pts k maxIteracoes r = .error msg) ∧
    (k ≤ pts.length →
      ∃ res, kmeans pts k maxIteracoes r = .ok res ∧
        res.centroids.length = k ∧ res.iterations ≤ maxIteracoes ∧
        ∀ c ∈ res.centroids, dentroLimites pts c) := by
  constructor
  · intro h
    exact ⟨"Número de pontos deve ser maior ou igual a k",
      by rw [kmeans, if_pos h]⟩
  · intro h
    have hne : pts ≠ [] := by
      intro he
      rw [he] at h
      simp only [List.length_nil] at h
      omega
    obtain ⟨h1, h2, h3⟩ := kmeansLoop_spec pts k maxIteracoes
      (initializeCentroids pts k r 0).1 0
      (initializeCentroids_length pts k r 0)
      (initializeCentroids_limites pts k r 0 hne hr)
    refine ⟨kmeansLoop pts k (initializeCentroids pts k r 0).1 0 maxIteracoes,
      ?_, h1, by omega, h2⟩
    rw [kmeans, if_neg (not_lt.mpr h)]

/-- Witness for C7: one point at the origin, `k = 1`, one iteration, all
random draws `0`. -/
theorem kmeans_termina_e_limita_witness :
    (([(⟨0, 0, 0⟩ : Ponto)]).length < 1 →
      ∃ msg, kmeans [⟨0, 0, 0⟩] 1 1 (fun _ => 0) = .error msg) ∧
    (1 ≤ ([(⟨0, 0, 0⟩ : Ponto)]).length →
      ∃ res, kmeans [⟨0, 0, 0⟩] 1 1 (fun _ => 0) = .ok res ∧
        res.centroids.length = 1 ∧ res.iterations ≤ 1 ∧
        ∀ c ∈ res.centroids, dentroLimites [⟨0, 0, 0⟩] c) :=
  kmeans_termina_e_limita [⟨0, 0, 0⟩] 1 1 (fun _ => 0) (le_refl 1)
    (fun _ => ⟨le_refl 0, by norm_num⟩)
